import Mathlib

/-
  Verification development for the repository "operate": two maintenance
  scripts that rewrite TypeScript source files by textual substitution.

  File contents are modelled as lists of characters.  Every regular
  expression of the source is embedded as an explicit executable matcher
  over such lists, with the backtracking order of the Python engine
  preserved where it matters (greedy repetition explored longest first).
-/

set_option maxRecDepth 100000
set_option maxHeartbeats 1000000

namespace OperateFix

/-- A file content, modelled as its list of characters. -/
abbrev Chars := List Char

/-- Convert a string literal to a character list. -/
def cs (s : String) : Chars := s.toList

/-- Whitespace characters, the class matched by a backslash-s in the
Python patterns and stripped by the strip method (ASCII range). -/
def isSpaceChar (c : Char) : Bool :=
  c = ' ' || c = '\t' || c = '\n' || c = '\r' || c.val == 11 || c.val == 12

/-- Word characters, the class used by the word-boundary assertion
(ASCII range). -/
def isWordChar (c : Char) : Bool := c.isAlphanum || c = '_'

/-- Quote characters accepted by the import scan of step 2. -/
def isQuoteCh (c : Char) : Bool := c = '\x27' || c = '\x22'

/-- Test whether the second list starts with the first one. -/
def startsWith : Chars → Chars → Bool
  | [], _ => true
  | _ :: _, [] => false
  | p :: ps, c :: rest => p = c && startsWith ps rest

/-- Substring test: the Python membership test on strings. -/
def containsSub (pat : Chars) : Chars → Bool
  | [] => startsWith pat []
  | c :: rest => startsWith pat (c :: rest) || containsSub pat rest

/-- Remove leading and trailing whitespace: the Python strip method. -/
def strip (l : Chars) : Chars :=
  ((l.dropWhile isSpaceChar).reverse.dropWhile isSpaceChar).reverse

/-- Split a list on every comma: the Python split method with a comma
separator (empty pieces are kept). -/
def splitComma : Chars → List Chars
  | [] => [[]]
  | c :: rest =>
    match splitComma rest with
    | a :: as => if c = ',' then [] :: a :: as else (c :: a) :: as
    | [] => [[c]]

/-- Consume an expected literal, returning the remainder on success. -/
def expectLit (p l : Chars) : Option Chars :=
  if startsWith p l then some (l.drop p.length) else none

/-- Consume one expected character. -/
def expectCh (a : Char) : Chars → Option Chars
  | [] => none
  | c :: rest => if c = a then some rest else none

/-- Consume the maximal run of whitespace (a deterministic star of the
whitespace class, sound whenever the next pattern item is a
non-whitespace literal). -/
def skipSpaces (l : Chars) : Chars := l.dropWhile isSpaceChar

/-- Greedy star with backtracking: consume characters of the class as
long as possible, handing every stop point to the continuation, longest
run first, as the Python engine does. -/
def manyBT (p : Char → Bool) (k : Chars → Option Chars) : Chars → Option Chars
  | [] => k []
  | c :: rest =>
    if p c then
      match manyBT p k rest with
      | some r => some r
      | none => k (c :: rest)
    else k (c :: rest)

/-- Greedy plus with backtracking: at least one character of the class,
then as `manyBT`. -/
def plusBT (p : Char → Bool) (k : Chars → Option Chars) : Chars → Option Chars
  | [] => none
  | c :: rest => if p c then manyBT p k rest else none

theorem startsWith_append (p r : Chars) : startsWith p (p ++ r) = true := by
  induction p with
  | nil => rfl
  | cons c ps ih => simp [startsWith, ih]

theorem startsWith_drop {p l : Chars} (h : startsWith p l = true) :
    l = p ++ l.drop p.length := by
  induction p generalizing l with
  | nil => simp
  | cons c ps ih =>
    cases l with
    | nil => simp [startsWith] at h
    | cons d rest =>
      simp only [startsWith, Bool.and_eq_true, decide_eq_true_eq] at h
      obtain ⟨rfl, h2⟩ := h
      simpa using ih h2

theorem containsSub_iff (pat l : Chars) :
    containsSub pat l = true ↔ ∃ s t, l = s ++ pat ++ t := by
  induction l with
  | nil =>
    simp only [containsSub]
    constructor
    · intro h
      refine ⟨[], [].drop pat.length, ?_⟩
      simpa using startsWith_drop h
    · rintro ⟨s, t, h⟩
      have : pat = [] := by
        rcases List.append_eq_nil.mp h.symm with ⟨h1, h2⟩
        exact (List.append_eq_nil.mp h1).2
      simp [this, startsWith]
  | cons c rest ih =>
    simp only [containsSub, Bool.or_eq_true]
    constructor
    · rintro (h | h)
      · exact ⟨[], (c :: rest).drop pat.length, by simpa using startsWith_drop h⟩
      · obtain ⟨s, t, h⟩ := ih.mp h
        exact ⟨c :: s, t, by simp [h]⟩
    · rintro ⟨s, t, h⟩
      cases s with
      | nil =>
        left
        simp only [List.nil_append] at h
        rw [h]
        exact startsWith_append pat t
      | cons a as =>
        right
        refine ih.mpr ⟨as, t, ?_⟩
        simpa using congrArg List.tail h

theorem expectLit_append (p r : Chars) : expectLit p (p ++ r) = some r := by
  simp [expectLit, startsWith_append]

theorem expectLit_some {p l r : Chars} (h : expectLit p l = some r) :
    l = p ++ r ∧ r.length + p.length = l.length := by
  unfold expectLit at h
  by_cases hs : startsWith p l = true
  · simp only [hs, if_true, Option.some.injEq] at h
    subst h
    refine ⟨startsWith_drop hs, ?_⟩
    conv_rhs => rw [startsWith_drop hs]
    simp [Nat.add_comm]
  · simp [hs] at h

theorem expectCh_some {a : Char} {l r : Chars} (h : expectCh a l = some r) :
    l = a :: r := by
  cases l with
  | nil => simp [expectCh] at h
  | cons c rest =>
    unfold expectCh at h
    by_cases hc : c = a
    · subst hc
      simp at h
      simp [h]
    · simp [hc] at h

theorem skipSpaces_length (l : Chars) : (skipSpaces l).length ≤ l.length := by
  unfold skipSpaces
  exact (List.dropWhile_suffix isSpaceChar).length_le

theorem manyBT_some {p : Char → Bool} {k : Chars → Option Chars} {l r : Chars}
    (h : manyBT p k l = some r) : ∃ s t, l = s ++ t ∧ k t = some r := by
  induction l with
  | nil => exact ⟨[], [], rfl, by simpa [manyBT] using h⟩
  | cons c rest ih =>
    unfold manyBT at h
    by_cases hp : p c
    · simp only [hp, if_true] at h
      cases hm : manyBT p k rest with
      | some r' =>
        rw [hm] at h
        obtain ⟨s, t, hst, hk⟩ := ih (hm.trans (congrArg some (Option.some.injEq _ _ ▸ (by simpa [hm] using h))))
        exact ⟨c :: s, t, by simp [hst], hk⟩
      | none =>
        rw [hm] at h
        exact ⟨[], c :: rest, rfl, h⟩
    · simp only [hp] at h
      exact ⟨[], c :: rest, rfl, by simpa using h⟩

theorem plusBT_some {p : Char → Bool} {k : Chars → Option Chars} {l r : Chars}
    (h : plusBT p k l = some r) : ∃ s t, l = s ++ t ∧ s ≠ [] ∧ k t = some r := by
  cases l with
  | nil => simp [plusBT] at h
  | cons c rest =>
    unfold plusBT at h
    by_cases hp : p c
    · simp only [hp, if_true] at h
      obtain ⟨s, t, hst, hk⟩ := manyBT_some h
      exact ⟨c :: s, t, by simp [hst], by simp, hk⟩
    · simp [hp] at h

theorem plusBT_length {p : Char → Bool} {k : Chars → Option Chars}
    (H : ∀ s r, k s = some r → r.length ≤ s.length) {l r : Chars}
    (h : plusBT p k l = some r) : r.length < l.length := by
  obtain ⟨s, t, hst, hs, hk⟩ := plusBT_some h
  have h1 : r.length ≤ t.length := H t r hk
  have h2 : t.length < l.length := by
    rw [hst, List.length_append]
    have : 0 < s.length := List.length_pos.mpr hs
    omega
  omega

/-! Matchers for the concrete regular expressions of the targeted fixer
(src/fix_enum_decorators.py).  Each deterministic matcher consumes
maximal runs where the pattern item after a star is a literal outside
the starred class, which coincides with the engine behaviour. -/

/-- Marker text whose presence gates the whole fixer (line 32 of
fix_enum_decorators.py). -/
def prismaMarker : Chars := cs ("from \x27@prisma/client\x27")

/-- Matcher, at the current position, for the pattern of line 37: the
keyword import, backslash-s star, brace, group of non-brace characters,
brace, backslash-s star, from, backslash-s star, quoted prisma package.
Returns the captured group. -/
def prismaMatchAt (l : Chars) : Option Chars :=
  (expectLit (cs ("import")) l).bind fun l1 =>
  (expectCh '\x7b' (skipSpaces l1)).bind fun l2 =>
  let g := l2.takeWhile (fun c => !(c = '\x7d'))
  if g.isEmpty then none else
  (expectCh '\x7d' (l2.dropWhile (fun c => !(c = '\x7d')))).bind fun l3 =>
  (expectLit (cs ("from")) (skipSpaces l3)).bind fun l4 =>
  (expectLit (cs ("\x27@prisma/client\x27")) (skipSpaces l4)).bind fun _ =>
  some g

/-- Leftmost search for the prisma import pattern: the re.search call of
line 37, returning the captured name list. -/
def prismaSearch : Chars → Option Chars
  | [] => none
  | c :: rest =>
    match prismaMatchAt (c :: rest) with
    | some g => some g
    | none => prismaSearch rest

/-- Matcher for the class-validator import pattern of lines 58-61: the
keyword import, backslash-s star, brace, non-brace group, brace,
backslash-s star, from, backslash-s star, quoted class-validator package
and a semicolon.  Returns the remainder after the match. -/
def validatorMatchAt (l : Chars) : Option Chars :=
  (expectLit (cs ("import")) l).bind fun l1 =>
  (expectCh '\x7b' (skipSpaces l1)).bind fun l2 =>
  let g := l2.takeWhile (fun c => !(c = '\x7d'))
  if g.isEmpty then none else
  (expectCh '\x7d' (l2.dropWhile (fun c => !(c = '\x7d')))).bind fun l3 =>
  (expectLit (cs ("from")) (skipSpaces l3)).bind fun l4 =>
  expectLit (cs ("\x27class-validator\x27;")) (skipSpaces l4)

/-- Leftmost search for the class-validator import, returning the whole
matched text (group zero of the re.search call at line 58). -/
def validatorSearch : Chars → Option Chars
  | [] => none
  | c :: rest =>
    match validatorMatchAt (c :: rest) with
    | some r => some ((c :: rest).take ((c :: rest).length - r.length))
    | none => validatorSearch rest

/-- Word-boundary search for the token IsIn: the re.search for
backslash-b IsIn backslash-b at line 56.  The scan carries the previous
character to decide the left boundary. -/
def hasWordIsInFrom (prev : Option Char) : Chars → Bool
  | [] => false
  | c :: rest =>
    (startsWith (cs ("IsIn")) (c :: rest)
      && (match prev with | some p => !isWordChar p | none => true)
      && (match (c :: rest).drop 4 with | [] => true | d :: _ => !isWordChar d))
    || hasWordIsInFrom (some c) rest

/-- Whether the content has a word-bounded IsIn token. -/
def hasWordIsIn (content : Chars) : Bool := hasWordIsInFrom none content

/-! Matcher for the import statements scanned by step 2 (line 73): the
keyword import, backslash-s plus, non-semicolon group, from, backslash-s
plus, quote, non-quote group, quote, semicolon.  The two plus
repetitions and the whitespace runs need backtracking, from plusBT. -/

/-- Closing part: one quote character, then the semicolon. -/
def impClose : Chars → Option Chars
  | a :: b :: r => if isQuoteCh a && b = ';' then some r else none
  | _ => none

/-- Quoted module part: an opening quote, then at least one non-quote
character handed to the closing part. -/
def impQuoted : Chars → Option Chars
  | [] => none
  | q :: rest => if isQuoteCh q then plusBT (fun c => !isQuoteCh c) impClose rest else none

/-- After the from keyword: at least one whitespace, then the quoted
module. -/
def impAfterFrom (l : Chars) : Option Chars := plusBT isSpaceChar impQuoted l

/-- After the non-semicolon run: the from keyword, then the rest. -/
def impBody (l : Chars) : Option Chars :=
  (expectLit (cs ("from")) l).bind impAfterFrom

/-- Matcher for the full import pattern at the current position,
returning the remainder after the match. -/
def importMatchAt (l : Chars) : Option Chars :=
  (expectLit (cs ("import")) l).bind
    (plusBT isSpaceChar (plusBT (fun c => !(c = ';')) impBody))

theorem impClose_length {l r : Chars} (h : impClose l = some r) :
    r.length ≤ l.length := by
  match l with
  | [] => simp [impClose] at h
  | [a] => simp [impClose] at h
  | a :: b :: t =>
    unfold impClose at h
    by_cases hc : isQuoteCh a && b = ';'
    · simp only [hc, if_true, Option.some.injEq] at h
      subst h
      simp
      omega
    · simp [hc] at h

theorem impQuoted_length {l r : Chars} (h : impQuoted l = some r) :
    r.length ≤ l.length := by
  match l with
  | [] => simp [impQuoted] at h
  | q :: rest =>
    unfold impQuoted at h
    by_cases hq : isQuoteCh q
    · simp only [hq, if_true] at h
      have := plusBT_length (fun s r hk => impClose_length hk) h
      simp
      omega
    · simp [hq] at h

theorem impAfterFrom_length {l r : Chars} (h : impAfterFrom l = some r) :
    r.length ≤ l.length := by
  have := plusBT_length (fun s r hk => impQuoted_length hk) h
  omega

theorem impBody_length {l r : Chars} (h : impBody l = some r) :
    r.length ≤ l.length := by
  unfold impBody at h
  cases he : expectLit (cs ("from")) l with
  | none => rw [he] at h; simp at h
  | some l1 =>
    rw [he] at h
    simp only [Option.some_bind] at h
    have h1 := (expectLit_some he).2
    have h2 := impAfterFrom_length h
    omega

theorem importMatchAt_length {l r : Chars} (h : importMatchAt l = some r) :
    r.length < l.length := by
  unfold importMatchAt at h
  cases he : expectLit (cs ("import")) l with
  | none => rw [he] at h; simp at h
  | some l1 =>
    rw [he] at h
    simp only [Option.some_bind] at h
    have h1 := (expectLit_some he).2
    have h2 := plusBT_length
      (fun s r hk => Nat.le_of_lt (plusBT_length (fun s r hk => impBody_length hk) hk)) h
    have : (cs ("import")).length = 6 := by rfl
    omega

/-- The finditer scan of lines 72-74: every non-overlapping match of
the pattern above, scanning left to right, recorded by its end index.
The first argument is a skip counter: after a match of length k the scan
resumes k characters further, which keeps the recursion structural. -/
def importScanAux : Nat → Chars → Nat → List Nat
  | _, [], _ => []
  | n + 1, _ :: rest, i => importScanAux n rest i
  | 0, c :: rest, i =>
    match importMatchAt (c :: rest) with
    | some r =>
      (i + ((c :: rest).length - r.length)) ::
        importScanAux ((c :: rest).length - r.length - 1) rest
          (i + ((c :: rest).length - r.length))
    | none => importScanAux 0 rest (i + 1)

/-- The match end indices of the import pattern over a content. -/
def importScan (l : Chars) (i : Nat) : List Nat := importScanAux 0 l i

/-- The loop of lines 72-74 keeps only the last match; its end position
is where the constants are inserted. -/
def lastImportEnd (content : Chars) : Option Nat :=
  (importScan content 0).foldl (fun _ e => some e) none

/-- Replace the first occurrence of a pattern: the Python replace method
with count one (line 68). -/
def replaceFirst (pat repl : Chars) : Chars → Chars
  | [] => if startsWith pat [] then repl else []
  | c :: rest =>
    if startsWith pat (c :: rest) then repl ++ (c :: rest).drop pat.length
    else c :: replaceFirst pat repl rest

/-- Replace every occurrence of a non-empty literal pattern, scanning
left to right without overlap: the Python replace method (line 63).
The skip counter keeps the recursion structural as in the scan above. -/
def replaceAllAux (pat repl : Chars) : Nat → Chars → Chars
  | _, [] => []
  | n + 1, _ :: rest => replaceAllAux pat repl n rest
  | 0, c :: rest =>
    if startsWith pat (c :: rest) && !pat.isEmpty then
      repl ++ replaceAllAux pat repl (pat.length - 1) rest
    else c :: replaceAllAux pat repl 0 rest

/-- Replace every occurrence of a non-empty literal pattern. -/
def replaceAllLit (pat repl l : Chars) : Chars := replaceAllAux pat repl 0 l

/-! Step 1 of fix_file (lines 55-69): inject IsIn into the
class-validator import when no word-bounded IsIn token is present. -/

/-- The text replaced inside the matched import (line 63). -/
def vTail : Chars := cs ("\x7d from \x27class-validator\x27;")

/-- Step 1: when no IsIn token exists, find the class-validator import
and insert an IsIn entry before its closing brace; otherwise, or when no
such import exists, leave the content unchanged. -/
def addIsInImport (content : Chars) : Chars :=
  if hasWordIsIn content then content
  else
    match validatorSearch content with
    | none => content
    | some oldImp =>
      replaceFirst oldImp (replaceAllLit vTail (cs ("  IsIn,\n") ++ vTail) oldImp) content

/-! Step 2 of fix_file (lines 71-87): insert generated constants after
the end of the last import statement. -/

/-- The comment line opening the constants block (line 80). -/
def constHeader : Chars := cs ("\n// Define values for validation\n")

/-- One generated constant declaration (line 83). -/
def constLine (n : Chars) : Chars :=
  cs ("const ") ++ n ++ cs ("Values = Object.values(") ++ n ++ cs (") as string[];\n")

/-- Whether the content already holds the constant text for a name
(line 82). -/
def hasConst (n content : Chars) : Bool :=
  containsSub (cs ("const ") ++ n ++ cs ("Values")) content

/-- The constants string built by the loop of lines 80-83. -/
def buildConstants (enums : List Chars) (content : Chars) : Chars :=
  enums.foldl (fun acc n => if hasConst n content then acc else acc ++ constLine n) constHeader

/-- The selected enums that still lack a constant declaration. -/
def missingEnums (enums : List Chars) (content : Chars) : List Chars :=
  enums.filter (fun n => !hasConst n content)

/-- Step 2: locate the last import statement and insert the constants
block right after it, unless every constant is already present
(lines 71-87). -/
def insertConstants (enums : List Chars) (content : Chars) : Chars :=
  match lastImportEnd content with
  | none => content
  | some e =>
    let consts := buildConstants enums content
    if strip consts = cs ("// Define values for validation") then content
    else content.take e ++ consts ++ content.drop e

/-! Step 3 of fix_file (lines 89-102): replace the two decorator call
shapes for every selected enum. -/

/-- Matcher for the bare decorator call at the current position
(line 92): the decorator name, an opening parenthesis, the enum name and
a closing parenthesis, all literal. -/
def simpleMatchAt (n : Chars) (l : Chars) : Option Chars :=
  (expectLit (cs ("@IsEnum(")) l).bind fun l1 =>
  (expectLit n l1).bind fun l2 =>
  expectCh ')' l2

/-- Matcher for the array-form decorator call at the current position
(line 98): after the enum name, a comma, optional whitespace, a brace,
optional whitespace, the each: marker, optional whitespace, true,
optional whitespace, a brace and the closing parenthesis. -/
def arrayMatchAt (n : Chars) (l : Chars) : Option Chars :=
  (expectLit (cs ("@IsEnum(")) l).bind fun l1 =>
  (expectLit n l1).bind fun l2 =>
  (expectCh ',' l2).bind fun l3 =>
  (expectCh '\x7b' (skipSpaces l3)).bind fun l4 =>
  (expectLit (cs ("each:")) (skipSpaces l4)).bind fun l5 =>
  (expectLit (cs ("true")) (skipSpaces l5)).bind fun l6 =>
  (expectCh '\x7d' (skipSpaces l6)).bind fun l7 =>
  expectCh ')' l7

/-- Replacement text for the bare form (line 93). -/
def simpleRepl (n : Chars) : Chars := cs ("@IsIn(") ++ n ++ cs ("Values)")

/-- Replacement text for the array form (line 99). -/
def arrayRepl (n : Chars) : Chars :=
  cs ("@IsIn(") ++ n ++ cs ("Values, \x7b each: true \x7d)")

/-- The re.sub loop: scan left to right; at a match emit the replacement
and continue after the matched text, otherwise emit the character.  The
guard on the match length is discharged by the matchers below, which
always consume at least the decorator prefix. -/
def subAllAux (m : Chars → Option Chars) (repl : Chars) : Nat → Chars → Chars
  | _, [] => []
  | n + 1, _ :: rest => subAllAux m repl n rest
  | 0, c :: rest =>
    match m (c :: rest) with
    | some r =>
      if r.length < rest.length + 1 then
        repl ++ subAllAux m repl (rest.length - r.length) rest
      else c :: subAllAux m repl 0 rest
    | none => c :: subAllAux m repl 0 rest

/-- The re.sub loop over a whole content. -/
def subAll (m : Chars → Option Chars) (repl : Chars) (l : Chars) : Chars :=
  subAllAux m repl 0 l

/-- Step 3: for each selected enum, in order, first the bare form then
the array form is rewritten over the whole content (lines 89-102). -/
def replaceDecorators (enums : List Chars) (content : Chars) : Chars :=
  enums.foldl
    (fun c n => subAll (arrayMatchAt n) (arrayRepl n) (subAll (simpleMatchAt n) (simpleRepl n) c))
    content

/-! The fix_file driver (lines 24-107). -/

/-- The names extracted from the captured prisma import group and kept
when their decorator usage text occurs in the content (lines 43-49). -/
def mkEnums (g content : Chars) : List Chars :=
  ((splitComma g).map strip).filter (fun n => containsSub (cs ("@IsEnum(") ++ n) content)

/-- The selected enums of a content: empty when the prisma import
pattern finds nothing. -/
def selectedEnums (content : Chars) : List Chars :=
  match prismaSearch content with
  | none => []
  | some g => mkEnums g content

/-- The status line printed by fix_file. -/
inductive FixMsg where
  | notFound
  | noPrisma
  | noEnumImports
  | noIsEnumUse
  | fixedFile
deriving DecidableEq

/-- The observable outcome of fix_file on one file: the returned
boolean, the content written back (none when no write happens) and the
printed message. -/
structure FixOutcome where
  fixed : Bool
  written : Option Chars
  msg : FixMsg
deriving DecidableEq

/-- The fix_file function (lines 24-107).  A missing file is the none
input; otherwise the four skip checks run in order, and past them the
three steps are applied and the result is written back unconditionally. -/
def fix_file : Option Chars → FixOutcome
  | none => ⟨false, none, FixMsg.notFound⟩
  | some content =>
    if containsSub prismaMarker content then
      match prismaSearch content with
      | none => ⟨false, none, FixMsg.noEnumImports⟩
      | some g =>
        let enums := mkEnums g content
        if enums.isEmpty then ⟨false, none, FixMsg.noIsEnumUse⟩
        else
          ⟨true,
            some (replaceDecorators enums (insertConstants enums (addIsInImport content))),
            FixMsg.fixedFile⟩
    else ⟨false, none, FixMsg.noPrisma⟩

/-- The content of the file after one run of fix_file: unchanged when
the run skips, the written text otherwise. -/
def fixContent (content : Chars) : Chars :=
  match (fix_file (some content)).written with
  | some c => c
  | none => content

/-- Specification-side predicate for claim C2: the name occurs as the
whole first argument of a decorator call, that is, an occurrence of the
decorator prefix and the name is followed by a non-word character or the
end of the content. -/
def usedAsFirstArg (n content : Chars) : Bool :=
  usedAsFirstArgFrom n content
where
  usedAsFirstArgFrom (n : Chars) : Chars → Bool
    | [] =>
      startsWith (cs ("@IsEnum(") ++ n) [] &&
        (match [].drop ((cs ("@IsEnum(") ++ n)).length with
          | [] => true | d :: _ => !isWordChar d)
    | c :: rest =>
      (startsWith (cs ("@IsEnum(") ++ n) (c :: rest) &&
        (match (c :: rest).drop ((cs ("@IsEnum(") ++ n)).length with
          | [] => true | d :: _ => !isWordChar d))
      || usedAsFirstArgFrom n rest

/-! Embedding of the bulk fixer, src/fix-ts-errors.py. -/

/-- Split a content into its lines: the Python split method on the
newline character. -/
def splitNl : Chars → List Chars
  | [] => [[]]
  | c :: rest =>
    match splitNl rest with
    | a :: as => if c = '\n' then [] :: a :: as else (c :: a) :: as
    | [] => [[c]]

/-- Join lines with newline characters: the Python join method. -/
def joinNl : List Chars → Chars
  | [] => []
  | [l] => l
  | l :: ls => l ++ '\n' :: joinNl ls

/-- The fix_error_handling function of fix-ts-errors.py (lines 7-16):
its body defines a regex pattern and a replacement function but never
applies them, returning the content argument unchanged. -/
def fix_error_handling (content : Chars) : Chars := content

/-- The per-line rewrite of fix_class_properties (lines 25-31): when the
previous line, stripped, starts with the decorator sign and the line has
a colon but neither an equals sign nor an exclamation mark, the first
colon is replaced. -/
def fixPropLine (prevLine line : Chars) : Chars :=
  if startsWith (cs ("@")) (strip prevLine)
      && containsSub (cs (":")) line
      && !containsSub (cs ("=")) line
      && !containsSub (cs ("!")) line
  then replaceFirst (cs (":")) (cs ("!:")) line
  else line

/-- The loop of fix_class_properties over all lines after the first. -/
def fixPropLines : Chars → List Chars → List Chars
  | _, [] => []
  | prev, l :: ls => fixPropLine prev l :: fixPropLines l ls

/-- The fix_class_properties function of fix-ts-errors.py (lines 18-33).
It is defined by the script but, like fix_error_handling, never called
from its main loop. -/
def fix_class_properties (content : Chars) : Chars :=
  match splitNl content with
  | [] => joinNl []
  | first :: rest => joinNl (first :: fixPropLines first rest)

/-- A file visited by the bulk fixer: its path, whether its path
contains the node_modules marker, and the result of reading it, which
is the one operation of the per-file body that can raise. -/
structure TsFile where
  path : Chars
  inNodeModules : Bool
  read : Except Chars Chars

/-- The observable events of the bulk fixer main loop: a Fixed line on
standard output, a write of new content, or an error line on standard
error. -/
inductive BulkEvent where
  | fixedLine (p : Chars)
  | wroteFile (p c : Chars)
  | errLine (p e : Chars)
deriving DecidableEq

/-- Whether an event is an error line. -/
def isErrLine : BulkEvent → Bool
  | BulkEvent.errLine _ _ => true
  | _ => false

/-- The per-file body of main (lines 40-53): read the content; the two
transformation calls are commented out, so the content stays the
original; write back and report only if the content changed; an
exception is caught and reported to standard error. -/
def processTsFile (f : TsFile) : List BulkEvent :=
  match f.read with
  | Except.ok content =>
    let origin := content
    if content ≠ origin then
      [BulkEvent.wroteFile f.path content, BulkEvent.fixedLine f.path]
    else []
  | Except.error e => [BulkEvent.errLine f.path e]

/-- The main loop of fix-ts-errors.py (lines 35-53): every matching file
outside node_modules is processed in order, each inside its own
try-except. -/
def bulkMain (files : List TsFile) : List BulkEvent :=
  (files.filter (fun f => !f.inNodeModules)).foldr
    (fun f acc => processTsFile f ++ acc) []

/-- Concrete file content for claim C1: every skip check passes and no
step alters the text. -/
def c1ex : Chars := cs ("import \x7b Foo \x7d from \x27@prisma/client\x27;\nconst FooValues = Object.values(Foo) as string[];\n@IsIn(FooValues)\n@IsEnum(FooQ) q\n")

/-- Concrete file content for claim C2: the imported name Foo is only a
prefix of the decorator argument FooBar. -/
def c2ex : Chars := cs ("import \x7b Foo \x7d from \x27@prisma/client\x27;\n@IsEnum(FooBar)\n")

/-- Concrete file content for claim C3: the array-form option object is
written without inner spaces. -/
def c3ex : Chars := cs ("import \x7b Status \x7d from \x27@prisma/client\x27;\nimport \x7b IsEnum \x7d from \x27class-validator\x27;\n@IsEnum(Status, \x7beach:true\x7d)\nx\n")

/-- The fixed output for the C3 content. -/
def c3exOut : Chars := cs ("import \x7b Status \x7d from \x27@prisma/client\x27;\nimport \x7b IsEnum   IsIn,\n\x7d from \x27class-validator\x27;\n// Define values for validation\nconst StatusValues = Object.values(Status) as string[];\n\n@IsIn(StatusValues, \x7b each: true \x7d)\nx\n")

/-- Concrete file content for claim C4: the imported name contains
text resembling an import, so the constant inserted by the first run
fabricates an import statement that a second run augments with IsIn. -/
def c4ex : Chars := cs ("import \x7b import \x7ba \x7d from \x27@prisma/client\x27;\n@IsEnum(import \x7ba;\x7dx\nimport z from \x27q\x27;\n\x7d from \x27class-validator\x27;\n")

/-- The C4 content after one run. -/
def c4exOut : Chars := cs ("import \x7b import \x7ba \x7d from \x27@prisma/client\x27;\n@IsEnum(import \x7ba;\x7dx\nimport z from \x27q\x27;\n// Define values for validation\nconst import \x7baValues = Object.values(import \x7ba) as string[];\n\n\x7d from \x27class-validator\x27;\n")

/-- The C4 content after two runs: the second run inserted an IsIn
entry into the fabricated import. -/
def c4exOut2 : Chars := cs ("import \x7b import \x7ba \x7d from \x27@prisma/client\x27;\n@IsEnum(import \x7ba;\x7dx\nimport z from \x27q\x27;\n// Define values for validation\nconst import \x7baValues = Object.values(import \x7ba) as string[];\n\n  IsIn,\n\x7d from \x27class-validator\x27;\n")

/-- Concrete file content for claim C6: the import list names Foo
twice. -/
def c6ex : Chars := cs ("import \x7b Foo, Foo \x7d from \x27@prisma/client\x27;\n@IsEnum(Foo)\n")

/-- The fixed output for the C6 content, holding two identical constant
declarations. -/
def c6exOut : Chars := cs ("import \x7b Foo, Foo \x7d from \x27@prisma/client\x27;\n// Define values for validation\nconst FooValues = Object.values(Foo) as string[];\nconst FooValues = Object.values(Foo) as string[];\n\n@IsIn(FooValues)\n")

/-- Concrete file content for claim C10: no class-validator import, no
IsIn token and no semicolon-terminated import statement. -/
def c10ex : Chars := cs ("import \x7b Role \x7d from \x27@prisma/client\x27\n@IsEnum(Role)\n")

/-- The fixed output for the C10 content: decorator replaced, no
constants and no injected import. -/
def c10exOut : Chars := cs ("import \x7b Role \x7d from \x27@prisma/client\x27\n@IsIn(RoleValues)\n")

/-- Concrete content for the witness of the amended claim C6: it holds
two import statements, so the insertion point ends the second one. -/
def w6ex : Chars := cs ("import \x7b A \x7d from \x27x\x27;\nmid\nimport \x7b B \x7d from \x27y\x27;\nend")

/-! Helper lemmas shared by the claim theorems. -/

theorem foldr_glue {a b : Type} (g : a → List b) (l : List a) (init : List b) :
    l.foldr (fun x acc => g x ++ acc) init = l.foldr (fun x acc => g x ++ acc) [] ++ init := by
  induction l with
  | nil => simp
  | cons x xs ih => simp [ih]

theorem foldl_keep_last (l : List Nat) (hne : l ≠ []) :
    ∀ init : Option Nat, l.foldl (fun _ e => some e) init = l.getLast? := by
  induction l with
  | nil => exact absurd rfl hne
  | cons c rest ih =>
    intro init
    cases rest with
    | nil => simp
    | cons b t =>
      rw [List.foldl_cons, ih (by simp) (some c), List.getLast?_cons_cons]

theorem lastImportEnd_getLast (content : Chars) :
    lastImportEnd content = (importScan content 0).getLast? := by
  unfold lastImportEnd
  cases h : importScan content 0 with
  | nil => simp
  | cons a t => exact foldl_keep_last (a :: t) (by simp) none

theorem foldl_build (p : Chars → Bool) (f : Chars → Chars) :
    ∀ (enums : List Chars) (acc : Chars),
      enums.foldl (fun a n => if p n then a else a ++ f n) acc
        = acc ++ (enums.filter (fun n => !p n)).foldr (fun m r => f m ++ r) [] := by
  intro enums
  induction enums with
  | nil => simp
  | cons n ns ih =>
    intro acc
    by_cases hp : p n = true
    · simp [List.foldl_cons, List.filter_cons, hp, ih]
    · simp only [Bool.not_eq_true] at hp
      simp [List.foldl_cons, List.filter_cons, hp, ih]

theorem buildConstants_eq (enums : List Chars) (content : Chars) :
    buildConstants enums content =
      constHeader ++ (missingEnums enums content).foldr (fun m r => constLine m ++ r) [] := by
  unfold buildConstants missingEnums
  exact foldl_build (fun n => hasConst n content) constLine enums constHeader

theorem subAllAux_skip {m : Chars → Option Chars} {repl : Chars} :
    ∀ (l : Chars) (n : Nat), subAllAux m repl n l = subAll m repl (l.drop n) := by
  intro l
  induction l with
  | nil => intro n; cases n <;> rfl
  | cons c rest ih =>
    intro n
    cases n with
    | zero => rfl
    | succ k => exact ih k

theorem subAll_cons_none {m : Chars → Option Chars} {repl : Chars} {c : Char}
    {l : Chars} (h : m (c :: l) = none) :
    subAll m repl (c :: l) = c :: subAll m repl l := by
  show subAllAux m repl 0 (c :: l) = c :: subAll m repl l
  rw [subAllAux, h]
  rfl

theorem subAll_match_cons {m : Chars → Option Chars} {repl : Chars} (c : Char)
    (tl post : Chars) (hm : m (c :: (tl ++ post)) = some post) :
    subAll m repl (c :: (tl ++ post)) = repl ++ subAll m repl post := by
  show subAllAux m repl 0 (c :: (tl ++ post)) = repl ++ subAll m repl post
  rw [subAllAux, hm]
  have hlt : post.length < (tl ++ post).length + 1 := by
    rw [List.length_append]; omega
  show (if post.length < (tl ++ post).length + 1 then
      repl ++ subAllAux m repl ((tl ++ post).length - post.length) (tl ++ post)
    else c :: subAllAux m repl 0 (tl ++ post)) = repl ++ subAll m repl post
  rw [if_pos hlt, subAllAux_skip]
  have hd : (tl ++ post).length - post.length = tl.length := by
    rw [List.length_append]; omega
  rw [hd, List.drop_left]

theorem subAll_append_nomatch {m : Chars → Option Chars} {repl : Chars}
    (hAt : ∀ d l2, ¬ d = '@' → m (d :: l2) = none)
    (u l : Chars) (hu : u.all (fun c => !(c = '@')) = true) :
    subAll m repl (u ++ l) = u ++ subAll m repl l := by
  induction u with
  | nil => simp
  | cons a as ih =>
    rw [List.all_cons, Bool.and_eq_true] at hu
    have ha : ¬ a = '@' := by
      intro hx
      rw [hx] at hu
      simp at hu
    rw [List.cons_append, subAll_cons_none (hAt a (as ++ l) ha), ih hu.2]
    rfl

theorem subAll_id_nomatch {m : Chars → Option Chars} (repl : Chars)
    (hAt : ∀ d l2, ¬ d = '@' → m (d :: l2) = none)
    (l : Chars) (hl : l.all (fun c => !(c = '@')) = true) :
    subAll m repl l = l := by
  have h2 : subAll m repl (l ++ []) = l ++ subAll m repl [] :=
    subAll_append_nomatch hAt l [] hl
  have h3 : subAll m repl ([] : Chars) = [] := rfl
  rw [List.append_nil, h3, List.append_nil] at h2
  exact h2

theorem word_all_no_at (n : Chars) (h : n.all isWordChar = true) :
    n.all (fun c => !(c = '@')) = true := by
  rw [List.all_eq_true] at h ⊢
  intro c hc
  have hw := h c hc
  have hne : ¬ c = '@' := by
    intro hx
    subst hx
    exact absurd hw (by decide)
  simp [hne]

theorem space_all_no_at (w : Chars) (h : w.all isSpaceChar = true) :
    w.all (fun c => !(c = '@')) = true := by
  rw [List.all_eq_true] at h ⊢
  intro c hc
  have hw := h c hc
  have hne : ¬ c = '@' := by
    intro hx
    subst hx
    exact absurd hw (by decide)
  simp [hne]

theorem startsWith_head_ne {p : Char} {ps : Chars} {d : Char} {l : Chars}
    (hd : ¬ d = p) : startsWith (p :: ps) (d :: l) = false := by
  simp only [startsWith, Bool.and_eq_false_iff]
  left
  simp only [decide_eq_false_iff_not]
  intro hx
  exact hd hx.symm

theorem simpleMatchAt_head (n : Chars) (d : Char) (l : Chars) (hd : ¬ d = '@') :
    simpleMatchAt n (d :: l) = none := by
  unfold simpleMatchAt expectLit
  rw [show startsWith (cs ("@IsEnum(")) (d :: l) = false from startsWith_head_ne hd]
  rfl

theorem arrayMatchAt_head (n : Chars) (d : Char) (l : Chars) (hd : ¬ d = '@') :
    arrayMatchAt n (d :: l) = none := by
  unfold arrayMatchAt expectLit
  rw [show startsWith (cs ("@IsEnum(")) (d :: l) = false from startsWith_head_ne hd]
  rfl

theorem skipSpaces_spaces {w : Chars} (c : Char) (l : Chars)
    (hw : w.all isSpaceChar = true) (hc : isSpaceChar c = false) :
    skipSpaces (w ++ (c :: l)) = c :: l := by
  induction w with
  | nil => simp [skipSpaces, List.dropWhile_cons, hc]
  | cons a as ih =>
    rw [List.all_cons, Bool.and_eq_true] at hw
    rw [List.cons_append]
    show List.dropWhile isSpaceChar (a :: (as ++ (c :: l))) = c :: l
    rw [List.dropWhile_cons, if_pos hw.1]
    exact ih hw.2

theorem expectCh_self (a : Char) (l : Chars) : expectCh a (a :: l) = some l := by
  simp [expectCh]

theorem simpleMatchAt_comma (n z : Chars) :
    simpleMatchAt n (cs ("@IsEnum(") ++ (n ++ (cs (",") ++ z))) = none := by
  unfold simpleMatchAt
  rw [expectLit_append, Option.some_bind, expectLit_append, Option.some_bind]
  show expectCh ')' (',' :: z) = none
  simp [expectCh]

theorem arrayMatchAt_occ (n w1 w2 w3 w4 post : Chars)
    (hw1 : w1.all isSpaceChar = true) (hw2 : w2.all isSpaceChar = true)
    (hw3 : w3.all isSpaceChar = true) (hw4 : w4.all isSpaceChar = true) :
    arrayMatchAt n
      (cs ("@IsEnum(") ++ (n ++ (cs (",") ++ (w1 ++ (cs ("\x7b") ++ (w2 ++
        (cs ("each:") ++ (w3 ++ (cs ("true") ++ (w4 ++ (cs ("\x7d)") ++ post)))))))))))
      = some post := by
  unfold arrayMatchAt
  rw [expectLit_append, Option.some_bind, expectLit_append, Option.some_bind]
  rw [show (cs (",") ++ (w1 ++ (cs ("\x7b") ++ (w2 ++ (cs ("each:") ++ (w3 ++
      (cs ("true") ++ (w4 ++ (cs ("\x7d)") ++ post)))))))))
    = ',' :: (w1 ++ ('\x7b' :: (w2 ++ ('e' :: (cs ("ach:") ++ (w3 ++ ('t' ::
      (cs ("rue") ++ (w4 ++ ('\x7d' :: (')' :: post))))))))))) from rfl]
  rw [expectCh_self, Option.some_bind]
  rw [skipSpaces_spaces '\x7b' _ hw1 (by decide), expectCh_self, Option.some_bind]
  rw [skipSpaces_spaces 'e' _ hw2 (by decide)]
  rw [show ('e' :: (cs ("ach:") ++ (w3 ++ ('t' :: (cs ("rue") ++ (w4 ++
      ('\x7d' :: (')' :: post))))))))
    = cs ("each:") ++ (w3 ++ ('t' :: (cs ("rue") ++ (w4 ++ ('\x7d' :: (')' :: post))))))
    from rfl]
  rw [expectLit_append, Option.some_bind]
  rw [skipSpaces_spaces 't' _ hw3 (by decide)]
  rw [show ('t' :: (cs ("rue") ++ (w4 ++ ('\x7d' :: (')' :: post)))))
    = cs ("true") ++ (w4 ++ ('\x7d' :: (')' :: post))) from rfl]
  rw [expectLit_append, Option.some_bind]
  rw [skipSpaces_spaces '\x7d' _ hw4 (by decide), expectCh_self, Option.some_bind]
  exact expectCh_self ')' post

/-! Theorems settling the claims. -/

/-- Shared helper: past the skip checks, fix_file runs the three steps
and reports the file as fixed with the pipeline output. -/
theorem fix_file_fixed_eq (content g : Chars)
    (h1 : containsSub prismaMarker content = true)
    (h2 : prismaSearch content = some g)
    (h3 : (mkEnums g content).isEmpty = false) :
    fix_file (some content) =
      ⟨true,
        some (replaceDecorators (mkEnums g content)
          (insertConstants (mkEnums g content) (addIsInImport content))),
        FixMsg.fixedFile⟩ := by
  simp [fix_file, h1, h2, h3]

/-- Claim C1, counterexample: this file content passes every skip check,
no step alters it, and fix_file still writes the identical content back
and reports the file as fixed. -/
theorem C1_counterexample :
    fix_file (some c1ex) = ⟨true, some c1ex, FixMsg.fixedFile⟩ := by decide

/-- Claim C1, amended: once a file passes every skip check, fix_file
always writes the resulting content back and reports FIXED, even when no
step altered the text. -/
theorem fix_file_always_writes (content g : Chars)
    (h1 : containsSub prismaMarker content = true)
    (h2 : prismaSearch content = some g)
    (h3 : (mkEnums g content).isEmpty = false) :
    fix_file (some content) =
      ⟨true,
        some (replaceDecorators (mkEnums g content)
          (insertConstants (mkEnums g content) (addIsInImport content))),
        FixMsg.fixedFile⟩ :=
  fix_file_fixed_eq content g h1 h2 h3

/-- Witness for the amended claim C1 at the C1 content. -/
theorem fix_file_always_writes_witness :
    fix_file (some c1ex) =
      ⟨true,
        some (replaceDecorators (mkEnums (cs (" Foo ")) c1ex)
          (insertConstants (mkEnums (cs (" Foo ")) c1ex) (addIsInImport c1ex))),
        FixMsg.fixedFile⟩ :=
  fix_file_always_writes c1ex (cs (" Foo ")) (by decide) (by decide) (by decide)

/-- Claim C2, counterexample: in the C2 content the name Foo is imported
from the prisma package and selected, yet it never occurs as the whole
first argument of the decorator; only the longer identifier FooBar
does. -/
theorem C2_counterexample :
    (cs ("Foo")) ∈ selectedEnums c2ex ∧
      usedAsFirstArg (cs ("Foo")) c2ex = false := by decide

/-- Claim C2, amended: the selected enums are exactly the imported names
whose decorator prefix text occurs anywhere in the content, so a name is
also selected when a longer identifier having it as a prefix is the
decorator argument. -/
theorem selectedEnums_iff (content g n : Chars)
    (h : prismaSearch content = some g) :
    n ∈ selectedEnums content ↔
      (n ∈ (splitComma g).map strip ∧
        ∃ s t : Chars, content = s ++ (cs ("@IsEnum(") ++ n) ++ t) := by
  unfold selectedEnums
  rw [h]
  unfold mkEnums
  rw [List.mem_filter, containsSub_iff]

/-- Witness for the amended claim C2 at the C2 content. -/
theorem selectedEnums_iff_witness :
    ((cs ("Foo")) ∈ selectedEnums c2ex ↔
      ((cs ("Foo")) ∈ (splitComma (cs (" Foo "))).map strip ∧
        ∃ s t : Chars, c2ex = s ++ (cs ("@IsEnum(") ++ cs ("Foo")) ++ t)) :=
  selectedEnums_iff c2ex (cs (" Foo ")) (cs ("Foo")) (by decide)

/-- The bare-form rewrite leaves a content untouched when its only
decorator occurrence is the array form: the comma after the name stops
the bare-form matcher. -/
theorem subAll_simple_pass (n pre post w1 w2 w3 w4 : Chars)
    (hn : n.all isWordChar = true)
    (hpre : pre.all (fun c => !(c = '@')) = true)
    (hpost : post.all (fun c => !(c = '@')) = true)
    (hw1 : w1.all isSpaceChar = true) (hw2 : w2.all isSpaceChar = true)
    (hw3 : w3.all isSpaceChar = true) (hw4 : w4.all isSpaceChar = true) :
    subAll (simpleMatchAt n) (simpleRepl n)
      (pre ++ (cs ("@IsEnum(") ++ (n ++ (cs (",") ++ (w1 ++ (cs ("\x7b") ++ (w2 ++
        (cs ("each:") ++ (w3 ++ (cs ("true") ++ (w4 ++ (cs ("\x7d)") ++ post))))))))))))
      = pre ++ (cs ("@IsEnum(") ++ (n ++ (cs (",") ++ (w1 ++ (cs ("\x7b") ++ (w2 ++
        (cs ("each:") ++ (w3 ++ (cs ("true") ++ (w4 ++ (cs ("\x7d)") ++ post))))))))))) := by
  rw [subAll_append_nomatch (simpleMatchAt_head n) pre _ hpre]
  congr 1
  show subAll (simpleMatchAt n) (simpleRepl n)
      ('@' :: (cs ("IsEnum(") ++ (n ++ (cs (",") ++ (w1 ++ (cs ("\x7b") ++ (w2 ++
        (cs ("each:") ++ (w3 ++ (cs ("true") ++ (w4 ++ (cs ("\x7d)") ++ post))))))))))))
    = '@' :: (cs ("IsEnum(") ++ (n ++ (cs (",") ++ (w1 ++ (cs ("\x7b") ++ (w2 ++
        (cs ("each:") ++ (w3 ++ (cs ("true") ++ (w4 ++ (cs ("\x7d)") ++ post)))))))))))
  have hnone : simpleMatchAt n
      ('@' :: (cs ("IsEnum(") ++ (n ++ (cs (",") ++ (w1 ++ (cs ("\x7b") ++ (w2 ++
        (cs ("each:") ++ (w3 ++ (cs ("true") ++ (w4 ++ (cs ("\x7d)") ++ post)))))))))))) = none :=
    simpleMatchAt_comma n
      (w1 ++ (cs ("\x7b") ++ (w2 ++ (cs ("each:") ++ (w3 ++ (cs ("true") ++ (w4 ++
        (cs ("\x7d)") ++ post))))))))
  rw [subAll_cons_none hnone]
  congr 1
  rw [subAll_append_nomatch (simpleMatchAt_head n) (cs ("IsEnum(")) _ (by decide)]
  congr 1
  refine subAll_id_nomatch (simpleRepl n) (simpleMatchAt_head n) _ ?_
  simp only [List.all_append, Bool.and_eq_true]
  exact ⟨word_all_no_at n hn, by decide, space_all_no_at w1 hw1, by decide,
    space_all_no_at w2 hw2, by decide, space_all_no_at w3 hw3, by decide,
    space_all_no_at w4 hw4, by decide, hpost⟩

/-- The array-form rewrite replaces the occurrence and emits the
canonical option object text. -/
theorem subAll_array_pass (n pre post w1 w2 w3 w4 : Chars)
    (hpre : pre.all (fun c => !(c = '@')) = true)
    (hpost : post.all (fun c => !(c = '@')) = true)
    (hw1 : w1.all isSpaceChar = true) (hw2 : w2.all isSpaceChar = true)
    (hw3 : w3.all isSpaceChar = true) (hw4 : w4.all isSpaceChar = true) :
    subAll (arrayMatchAt n) (arrayRepl n)
      (pre ++ (cs ("@IsEnum(") ++ (n ++ (cs (",") ++ (w1 ++ (cs ("\x7b") ++ (w2 ++
        (cs ("each:") ++ (w3 ++ (cs ("true") ++ (w4 ++ (cs ("\x7d)") ++ post))))))))))))
      = pre ++ (cs ("@IsIn(") ++ (n ++ (cs ("Values, \x7b each: true \x7d)") ++ post))) := by
  rw [subAll_append_nomatch (arrayMatchAt_head n) pre _ hpre]
  have hsplit : cs ("@IsEnum(") ++ (n ++ (cs (",") ++ (w1 ++ (cs ("\x7b") ++ (w2 ++
        (cs ("each:") ++ (w3 ++ (cs ("true") ++ (w4 ++ (cs ("\x7d)") ++ post))))))))))
      = '@' :: ((cs ("IsEnum(") ++ (n ++ (cs (",") ++ (w1 ++ (cs ("\x7b") ++ (w2 ++
        (cs ("each:") ++ (w3 ++ (cs ("true") ++ (w4 ++ cs ("\x7d)"))))))))))) ++ post) := by
    show '@' :: (cs ("IsEnum(") ++ (n ++ (cs (",") ++ (w1 ++ (cs ("\x7b") ++ (w2 ++
        (cs ("each:") ++ (w3 ++ (cs ("true") ++ (w4 ++ (cs ("\x7d)") ++ post)))))))))))
      = '@' :: ((cs ("IsEnum(") ++ (n ++ (cs (",") ++ (w1 ++ (cs ("\x7b") ++ (w2 ++
        (cs ("each:") ++ (w3 ++ (cs ("true") ++ (w4 ++ cs ("\x7d)"))))))))))) ++ post)
    simp [List.append_assoc]
  have hm := arrayMatchAt_occ n w1 w2 w3 w4 post hw1 hw2 hw3 hw4
  rw [hsplit] at hm
  rw [hsplit, subAll_match_cons '@' _ post hm,
    subAll_id_nomatch (arrayRepl n) (arrayMatchAt_head n) post hpost]
  simp [arrayRepl, List.append_assoc]

/-- Claim C3, counterexample: the C3 content carries the array-form
usage with option object text written without inner spaces; the fixed
output holds the canonical option object instead, so the option object
of the input occurrence is not preserved character for character. -/
theorem C3_counterexample :
    fix_file (some c3ex) = ⟨true, some c3exOut, FixMsg.fixedFile⟩ ∧
    containsSub (cs ("@IsEnum(Status, \x7beach:true\x7d)")) c3ex = true ∧
    containsSub (cs ("@IsIn(StatusValues, \x7b each: true \x7d)")) c3exOut = true ∧
    containsSub (cs ("\x7beach:true\x7d")) c3exOut = false := by decide

/-- Claim C3, amended: an array-form occurrence is replaced by the
second decorator with the fixed canonical option object text, whatever
whitespace the original option object used; the option object is
preserved verbatim exactly when it is already in that canonical form. -/
theorem replaceDecorators_array_canonical (n pre post w1 w2 w3 w4 : Chars)
    (hn : n.all isWordChar = true)
    (hpre : pre.all (fun c => !(c = '@')) = true)
    (hpost : post.all (fun c => !(c = '@')) = true)
    (hw1 : w1.all isSpaceChar = true) (hw2 : w2.all isSpaceChar = true)
    (hw3 : w3.all isSpaceChar = true) (hw4 : w4.all isSpaceChar = true) :
    replaceDecorators [n]
      (pre ++ (cs ("@IsEnum(") ++ (n ++ (cs (",") ++ (w1 ++ (cs ("\x7b") ++ (w2 ++
        (cs ("each:") ++ (w3 ++ (cs ("true") ++ (w4 ++ (cs ("\x7d)") ++ post))))))))))))
      = pre ++ (cs ("@IsIn(") ++ (n ++ (cs ("Values, \x7b each: true \x7d)") ++ post))) := by
  show subAll (arrayMatchAt n) (arrayRepl n)
      (subAll (simpleMatchAt n) (simpleRepl n) _) = _
  rw [subAll_simple_pass n pre post w1 w2 w3 w4 hn hpre hpost hw1 hw2 hw3 hw4,
    subAll_array_pass n pre post w1 w2 w3 w4 hpre hpost hw1 hw2 hw3 hw4]

/-- Witness for the amended claim C3 at concrete surroundings and the
spacing of the C3 content. -/
theorem replaceDecorators_array_canonical_witness :
    replaceDecorators [cs ("Foo")]
      (cs ("x ") ++ (cs ("@IsEnum(") ++ (cs ("Foo") ++ (cs (",") ++ (cs (" ") ++
        (cs ("\x7b") ++ ([] ++ (cs ("each:") ++ ([] ++ (cs ("true") ++
          ([] ++ (cs ("\x7d)") ++ cs (" y")))))))))))))
      = cs ("x ") ++ (cs ("@IsIn(") ++ (cs ("Foo") ++
          (cs ("Values, \x7b each: true \x7d)") ++ cs (" y")))) :=
  replaceDecorators_array_canonical (cs ("Foo")) (cs ("x ")) (cs (" y"))
    (cs (" ")) [] [] []
    (by decide) (by decide) (by decide) (by decide) (by decide) (by decide) (by decide)

/-- Claim C4, counterexample: two runs of fix_file differ on the C4
content; the constant inserted by the first run fabricates an import
statement that the second run augments with an IsIn entry. -/
theorem C4_counterexample :
    fixContent (fixContent c4ex) ≠ fixContent c4ex := by decide

/-- Claim C4, amended: a second run can still change the file, so
idempotence fails in general, but a run never duplicates an insertion:
the IsIn entry is injected only when no word-bounded IsIn token is
present, and a constant declaration is generated only for enums whose
constant text is absent. -/
theorem fix_file_no_duplicate_insertions (content : Chars)
    (enums : List Chars) (n : Chars)
    (hIsIn : hasWordIsIn content = true)
    (hconst : hasConst n content = true) :
    addIsInImport content = content ∧
    n ∉ missingEnums enums content ∧
    buildConstants enums content =
      constHeader ++ (missingEnums enums content).foldr (fun m r => constLine m ++ r) [] := by
  refine ⟨by simp [addIsInImport, hIsIn], ?_, buildConstants_eq enums content⟩
  simp [missingEnums, List.mem_filter, hconst]

/-- Witness for the amended claim C4 at the C1 content, which holds both
an IsIn token and a constant for Foo. -/
theorem fix_file_no_duplicate_insertions_witness :
    addIsInImport c1ex = c1ex ∧
    (cs ("Foo")) ∉ missingEnums [cs ("Foo")] c1ex ∧
    buildConstants [cs ("Foo")] c1ex =
      constHeader ++ (missingEnums [cs ("Foo")] c1ex).foldr (fun m r => constLine m ++ r) [] :=
  fix_file_no_duplicate_insertions c1ex [cs ("Foo")] (cs ("Foo")) (by decide) (by decide)

/-- Claim C5: each of the four skip cases returns false, performs no
write, and reports the matching skip reason, leaving the content
untouched. -/
theorem fix_file_skips :
    fix_file none = ⟨false, none, FixMsg.notFound⟩ ∧
    (∀ c : Chars, containsSub prismaMarker c = false →
      fix_file (some c) = ⟨false, none, FixMsg.noPrisma⟩) ∧
    (∀ c : Chars, containsSub prismaMarker c = true → prismaSearch c = none →
      fix_file (some c) = ⟨false, none, FixMsg.noEnumImports⟩) ∧
    (∀ c g : Chars, containsSub prismaMarker c = true → prismaSearch c = some g →
      mkEnums g c = [] →
      fix_file (some c) = ⟨false, none, FixMsg.noIsEnumUse⟩) := by
  refine ⟨rfl, ?_, ?_, ?_⟩
  · intro c h
    simp [fix_file, h]
  · intro c h1 h2
    simp [fix_file, h1, h2]
  · intro c g h1 h2 h3
    simp [fix_file, h1, h2, h3]

/-- Witness for claim C5: the three content-dependent skip cases at
concrete contents. -/
theorem fix_file_skips_witness :
    fix_file (some (cs ("hello"))) = ⟨false, none, FixMsg.noPrisma⟩ ∧
    fix_file (some (cs ("x from \x27@prisma/client\x27 x"))) =
      ⟨false, none, FixMsg.noEnumImports⟩ ∧
    fix_file (some (cs ("import \x7bA\x7d from \x27@prisma/client\x27; z"))) =
      ⟨false, none, FixMsg.noIsEnumUse⟩ :=
  ⟨fix_file_skips.2.1 _ (by decide),
   fix_file_skips.2.2.1 _ (by decide) (by decide),
   fix_file_skips.2.2.2 _ (cs ("A")) (by decide) (by decide) (by decide)⟩

/-- Claim C6, counterexample: the C6 content imports the identifier Foo
twice; fix_file inserts two identical constant declarations for the one
selected identifier. -/
theorem C6_counterexample :
    fix_file (some c6ex) = ⟨true, some c6exOut, FixMsg.fixedFile⟩ ∧
    containsSub (constLine (cs ("Foo")) ++ constLine (cs ("Foo"))) c6exOut = true := by
  decide

/-- Claim C6, amended: when constants are inserted, they go immediately
after the end of the last import match of the exhaustive scan, with one
declaration per entry of the selected list that lacks a constant, so an
identifier listed twice yields two copies. -/
theorem insertConstants_after_last_import (enums : List Chars) (content : Chars)
    (e : Nat)
    (h1 : lastImportEnd content = some e)
    (h2 : ¬ strip (buildConstants enums content) =
      cs ("// Define values for validation")) :
    insertConstants enums content =
      content.take e ++ buildConstants enums content ++ content.drop e ∧
    buildConstants enums content =
      constHeader ++ (missingEnums enums content).foldr (fun m r => constLine m ++ r) [] ∧
    lastImportEnd content = (importScan content 0).getLast? := by
  refine ⟨?_, buildConstants_eq enums content, lastImportEnd_getLast content⟩
  unfold insertConstants
  rw [h1]
  simp [h2]

/-- Witness for the amended claim C6: a content with two import
statements; the insertion index 49 is the end of the second import, not
the end 22 of the first. -/
theorem insertConstants_after_last_import_witness :
    insertConstants [cs ("Foo")] w6ex =
      w6ex.take 49 ++ buildConstants [cs ("Foo")] w6ex ++ w6ex.drop 49 ∧
    buildConstants [cs ("Foo")] w6ex =
      constHeader ++ (missingEnums [cs ("Foo")] w6ex).foldr (fun m r => constLine m ++ r) [] ∧
    lastImportEnd w6ex = (importScan w6ex 0).getLast? :=
  insertConstants_after_last_import [cs ("Foo")] w6ex 49 (by decide) (by decide)

/-- Claim C7: a read failure of one file adds one error line carrying
that path and message to standard error, and the remaining files are
still processed; no single failure aborts the batch. -/
theorem bulkMain_error_continues (fs gs : List TsFile) (f : TsFile) (e : Chars)
    (h1 : f.inNodeModules = false) (h2 : f.read = Except.error e) :
    bulkMain (fs ++ f :: gs) =
      bulkMain fs ++ BulkEvent.errLine f.path e :: bulkMain gs := by
  unfold bulkMain
  rw [List.filter_append]
  have hf : (f :: gs).filter (fun f => !f.inNodeModules) =
      f :: gs.filter (fun f => !f.inNodeModules) := by
    simp [List.filter_cons, h1]
  rw [hf, List.foldr_append, List.foldr_cons]
  have hp : processTsFile f = [BulkEvent.errLine f.path e] := by
    simp [processTsFile, h2]
  rw [hp, foldr_glue]
  simp

/-- Witness for claim C7: a failing file between two readable ones. -/
theorem bulkMain_error_continues_witness :
    bulkMain [⟨cs ("a.ts"), false, Except.ok (cs ("alpha"))⟩,
        ⟨cs ("bad.ts"), false, Except.error (cs ("denied"))⟩,
        ⟨cs ("b.ts"), false, Except.ok (cs ("beta"))⟩] =
      bulkMain [⟨cs ("a.ts"), false, Except.ok (cs ("alpha"))⟩] ++
        BulkEvent.errLine (cs ("bad.ts")) (cs ("denied")) ::
          bulkMain [⟨cs ("b.ts"), false, Except.ok (cs ("beta"))⟩] :=
  bulkMain_error_continues
    [⟨cs ("a.ts"), false, Except.ok (cs ("alpha"))⟩]
    [⟨cs ("b.ts"), false, Except.ok (cs ("beta"))⟩]
    ⟨cs ("bad.ts"), false, Except.error (cs ("denied"))⟩
    (cs ("denied")) rfl rfl

/-- Claim C8: with the transformation calls commented out, every event
of a bulk run is an error line: no file is written, no Fixed line is
printed, and zero files are modified. -/
theorem bulkMain_noop (files : List TsFile) :
    (bulkMain files).all isErrLine = true := by
  unfold bulkMain
  induction files.filter (fun f => !f.inNodeModules) with
  | nil => rfl
  | cons f fs ih =>
    rw [List.foldr_cons, List.all_append]
    refine (Bool.and_eq_true _ _).mpr ⟨?_, ih⟩
    unfold processTsFile
    cases f.read with
    | ok content => simp
    | error e => simp [isErrLine]

/-- Claim C9: fix_error_handling returns its input unchanged for every
content, since the pattern and replacement it defines are never
applied. -/
theorem fix_error_handling_identity (content : Chars) :
    fix_error_handling content = content := rfl

/-- Claim C10, counterexample: the C10 content passes every skip check
and has neither a class-validator import nor an IsIn token nor a
semicolon-terminated import; fix_file reports it fixed and replaces the
decorator, but inserts no constant declaration. -/
theorem C10_counterexample :
    fix_file (some c10ex) = ⟨true, some c10exOut, FixMsg.fixedFile⟩ ∧
    hasWordIsIn c10ex = false ∧
    validatorSearch c10ex = none ∧
    containsSub (cs ("const RoleValues")) c10exOut = false ∧
    containsSub (cs ("@IsIn(RoleValues)")) c10exOut = true := by decide

/-- Claim C10, amended: without a class-validator import and without an
IsIn token, step 1 changes nothing, and fix_file reports FIXED with the
content produced by constant insertion and decorator replacement alone;
constants are inserted only when the import scan finds a
semicolon-terminated import statement. -/
theorem fix_file_without_validator_import (content g : Chars)
    (h1 : containsSub prismaMarker content = true)
    (h2 : prismaSearch content = some g)
    (h3 : (mkEnums g content).isEmpty = false)
    (h4 : hasWordIsIn content = false)
    (h5 : validatorSearch content = none) :
    addIsInImport content = content ∧
    fix_file (some content) =
      ⟨true,
        some (replaceDecorators (mkEnums g content)
          (insertConstants (mkEnums g content) content)),
        FixMsg.fixedFile⟩ := by
  have hstep1 : addIsInImport content = content := by
    simp [addIsInImport, h4, h5]
  refine ⟨hstep1, ?_⟩
  rw [fix_file_fixed_eq content g h1 h2 h3, hstep1]

/-- Witness for the amended claim C10 at the C10 content. -/
theorem fix_file_without_validator_import_witness :
    addIsInImport c10ex = c10ex ∧
    fix_file (some c10ex) =
      ⟨true,
        some (replaceDecorators (mkEnums (cs (" Role ")) c10ex)
          (insertConstants (mkEnums (cs (" Role ")) c10ex) c10ex)),
        FixMsg.fixedFile⟩ :=
  fix_file_without_validator_import c10ex (cs (" Role "))
    (by decide) (by decide) (by decide) (by decide) (by decide)

end OperateFix
